import Mathlib

/-!
Verification development for the Florida franchisee tracker
(src/franchisee_tracker.py). The review-aggregation pipeline of the script
is embedded shallowly: pandas boolean-mask filtering becomes List.filter,
pandas groupby (with its default sorted keys) becomes insertion of keys
into a sorted distinct-key list, and the numeric column `sentiment` is
modelled by rationals. Each claim about the pipeline is stated and settled
against these definitions.
-/

/-! ## Characters and case-insensitive substring matching -/

/-- ASCII lower-casing of one character, the case-relevant fragment of the
lower-casing done by pandas when str.contains is called with case=False. -/
def charLower (c : Char) : Char :=
  if 65 ≤ c.toNat ∧ c.toNat ≤ 90 then Char.ofNat (c.toNat + 32) else c

/-- Lower-cased character list of a string. -/
def lowerStr (s : String) : List Char := s.data.map charLower

/-- Test whether the first character list is a prefix of the second. -/
def leadsChars : List Char → List Char → Bool
  | [], _ => true
  | _ :: _, [] => false
  | p :: ps, h :: hs => p == h && leadsChars ps hs

/-- Test whether pat occurs contiguously inside hay. -/
def hasSubstr : List Char → List Char → Bool
  | [], pat => pat.isEmpty
  | h :: t, pat => leadsChars pat (h :: t) || hasSubstr t pat

/-- Case-insensitive literal-substring test: the reading of the category and
name match that spec section 4.1 states ("case-insensitive substring match").
The script's calls at src lines 24 and 26 actually go through
pandas Series.str.contains with its default regex=True, so the pattern is a
regular expression there; that reading is modelled separately below
(reParseFrag / reSearch / filter_data_re), and the two readings are proved to
coincide exactly on patterns free of regex metacharacters. -/
def containsCI (hay pat : String) : Bool :=
  hasSubstr (lowerStr hay) (lowerStr pat)

/-! ## Data model (spec section 3; CSV columns consumed by the script) -/

/-- One review row of the dataset loaded at src line 20. `categories` is an
Option because that column can be missing (NaN) for a row, which the filter
at line 24 handles through na=False. -/
structure Review where
  business_id : String
  name : String
  city : String
  categories : Option String
  postal_code : String
  address : String
  latitude : ℚ
  longitude : ℚ
  sentiment : ℚ
deriving DecidableEq, Repr

/-! ## filter_data (src lines 23-27) -/

/-- Category predicate of src line 24:
df['categories'].str.contains(category, case=False, na=False).
A missing categories value (na=False) never matches. -/
def catMatches (cats : Option String) (category : String) : Bool :=
  match cats with
  | none => false
  | some s => containsCI s category

/-- Row predicate of src line 24: exact (case-sensitive) city equality and
case-insensitive category substring match. -/
def rowMatches (city category : String) (r : Review) : Bool :=
  (r.city == city) && catMatches r.categories category

/-- Name predicate of src line 26:
filtered['name'].str.contains(business_name, case=False, na=False). -/
def nameMatches (business_name : String) (r : Review) : Bool :=
  containsCI r.name business_name

/-- Embedding of filter_data (src lines 23-27) under the literal-substring
reading of the two str.contains matches. business_name = none models the
Python default None, some "" models the empty text-input string; the guard
`if business_name:` at line 25 is falsy for both, so the name filter runs
only for a provided non-empty name. The regex reading of the same lines is
filter_data_re below; the two agree on metacharacter-free patterns. -/
def filter_data (rows : List Review) (city category : String)
    (business_name : Option String) : List Review :=
  let filtered := rows.filter (rowMatches city category)
  match business_name with
  | none => filtered
  | some b => if b = "" then filtered else filtered.filter (nameMatches b)

/-! ## Basic facts about the substring test -/

theorem hasSubstr_nil (hay : List Char) : hasSubstr hay [] = true := by
  cases hay with
  | nil => rfl
  | cons h t => simp [hasSubstr, leadsChars]

theorem containsCI_empty (hay : String) : containsCI hay "" = true := by
  simp [containsCI, lowerStr, hasSubstr_nil]

theorem mem_filter_data (rows : List Review) (c k : String) (b : Option String)
    (r : Review) (h : r ∈ filter_data rows c k b) :
    r ∈ rows.filter (rowMatches c k) := by
  unfold filter_data at h
  match b with
  | none => exact h
  | some bn =>
    by_cases hb : bn = ""
    · simpa [hb] using h
    · simp only [hb, if_false] at h
      exact (List.filter_sublist _).mem h

/-- Structural properties of the literal-substring filter: every returned
record has the requested city, a matching category and (when a name is
provided) a matching name; the result is an order-preserving subsequence of
the input; no match gives the empty list. Shared helper for the claims about
filter_data. -/
theorem filter_data_props (rows : List Review) (c k : String)
    (b : Option String) :
    (∀ r ∈ filter_data rows c k b,
        r.city = c ∧ catMatches r.categories k = true ∧
          ∀ bn, b = some bn → nameMatches bn r = true)
      ∧ (filter_data rows c k b).Sublist rows
      ∧ ((∀ r ∈ rows, rowMatches c k r = false) →
          filter_data rows c k b = []) := by
  refine ⟨?_, ?_, ?_⟩
  · intro r hr
    have hbase := mem_filter_data rows c k b r hr
    have hrow := (List.mem_filter.mp hbase).2
    simp only [rowMatches, Bool.and_eq_true, beq_iff_eq] at hrow
    refine ⟨hrow.1, hrow.2, ?_⟩
    intro bn hbn
    subst hbn
    by_cases hb : bn = ""
    · subst hb
      simp [nameMatches, containsCI_empty]
    · unfold filter_data at hr
      simp only [hb, if_false] at hr
      exact (List.mem_filter.mp hr).2
  · have h1 : (filter_data rows c k b).Sublist (rows.filter (rowMatches c k)) := by
      unfold filter_data
      match b with
      | none => exact List.Sublist.refl _
      | some bn =>
        by_cases hb : bn = ""
        · simp [hb]
        · simp only [hb, if_false]
          exact List.filter_sublist _
    exact h1.trans (List.filter_sublist rows)
  · intro hnone
    have hbase : rows.filter (rowMatches c k) = [] := by
      simp only [List.filter_eq_nil_iff]
      intro r hr
      simp [hnone r hr]
    unfold filter_data
    match b with
    | none => exact hbase
    | some bn =>
      by_cases hb : bn = ""
      · simp [hb, hbase]
      · simp [hb, hbase]

/-- Claim C10: a missing business name (Python None) and the empty-string
business name behave identically in filter_data -- the name predicate is not
applied at all and the result is exactly the city-and-category filter; only a
non-empty business name narrows the result further. -/
theorem claim_C10_empty_name_no_filter (rows : List Review) (c k : String) :
    filter_data rows c k (some "") = filter_data rows c k none
      ∧ filter_data rows c k none = rows.filter (rowMatches c k)
      ∧ ∀ bn : String, bn ≠ "" →
          filter_data rows c k (some bn)
            = (rows.filter (rowMatches c k)).filter (nameMatches bn) := by
  refine ⟨by simp [filter_data], rfl, ?_⟩
  intro bn hbn
  simp [filter_data, hbn]

/-- Witness for claim C10: with the concrete non-empty name "Gym" the name
predicate is applied on a concrete dataset. -/
theorem claim_C10_empty_name_no_filter_witness :
    filter_data
      [⟨"b1", "Cafe", "Tampa", some "Restaurant, Coffee", "33101", "a", 0, 0, 0⟩]
      "Tampa" "coffee" (some "Gym")
      = (([⟨"b1", "Cafe", "Tampa", some "Restaurant, Coffee", "33101", "a", 0, 0,
            0⟩].filter (rowMatches "Tampa" "coffee")).filter (nameMatches "Gym")) :=
  (claim_C10_empty_name_no_filter
      [⟨"b1", "Cafe", "Tampa", some "Restaurant, Coffee", "33101", "a", 0, 0, 0⟩]
      "Tampa" "coffee").2.2 "Gym" (by decide)

/-! ## Sentiment statistics for one location
(src lines 184-190 aggregation and lines 306-317 location statistics) -/

/-- Per-location sentiment statistics, following the aggregation of src
lines 184-190 (positive_reviews, negative_reviews, neutral_reviews,
mean_sentiment, sentiment_count) which lines 306-317 recompute with the same
predicates for a single location. -/
structure SentimentStats where
  positive_reviews : Nat
  negative_reviews : Nat
  neutral_reviews : Nat
  mean_sentiment : ℚ
  sentiment_count : Nat
deriving DecidableEq, Repr

/-- Statistics of one nonempty group of reviews, exactly the lambdas of src
lines 185-189: (x > 0).sum, (x < 0).sum, (x == 0).sum, mean, count. -/
def statsOf (g : List Review) : SentimentStats where
  positive_reviews := g.countP (fun r => decide (0 < r.sentiment))
  negative_reviews := g.countP (fun r => decide (r.sentiment < 0))
  neutral_reviews := g.countP (fun r => decide (r.sentiment = 0))
  mean_sentiment := ((g.map (fun r => r.sentiment)).sum) / (g.length : ℚ)
  sentiment_count := g.length

/-- Failure signal of the spec's summarize_location contract. -/
inductive EmptyGroupError where
  | emptyGroup
deriving DecidableEq, Repr

/-- Spec section 4.1 summarize_location. The statistics on a nonempty group
follow src lines 184-190 / 306-317. Modelled from the spec: the
EmptyGroupError behavior on an empty group (spec sections 4.1 and 7) -- the
script itself never materializes an empty group (pandas groupby yields only
nonempty groups and the location path is guarded by len(location_data) > 0 at
line 304), so the failure half of the contract exists only in the spec. -/
def summarize_location (g : List Review) : Except EmptyGroupError SentimentStats :=
  match g with
  | [] => .error .emptyGroup
  | _ :: _ => .ok (statsOf g)

/-- Every review is counted in exactly one of the three sentiment classes. -/
theorem sentiment_count_partition (g : List Review) :
    g.countP (fun r => decide (0 < r.sentiment))
        + g.countP (fun r => decide (r.sentiment < 0))
        + g.countP (fun r => decide (r.sentiment = 0))
      = g.length := by
  induction g with
  | nil => simp
  | cons r t ih =>
    rcases lt_trichotomy (0 : ℚ) r.sentiment with h | h | h
    · have e1 : decide (0 < r.sentiment) = true := by simpa using h
      have e2 : decide (r.sentiment < 0) = false := by simpa using not_lt.mpr h.le
      have e3 : decide (r.sentiment = 0) = false := by simpa using h.ne'
      simp [List.countP_cons, e1, e2, e3]
      omega
    · have e1 : decide (0 < r.sentiment) = false := by simp [← h]
      have e2 : decide (r.sentiment < 0) = false := by simp [← h]
      have e3 : decide (r.sentiment = 0) = true := by simp [← h]
      simp [List.countP_cons, e1, e2, e3]
      omega
    · have e1 : decide (0 < r.sentiment) = false := by
        simpa using not_lt.mpr h.le
      have e2 : decide (r.sentiment < 0) = true := by simpa using h
      have e3 : decide (r.sentiment = 0) = false := by simpa using h.ne
      simp [List.countP_cons, e1, e2, e3]
      omega

/-- Claim C3: on a nonempty group of reviews with sentiments in [-1, 1],
summarize_location succeeds and returns the count of strictly positive,
strictly negative and exactly zero sentiments, the arithmetic mean, and the
group size, and the three class counts sum to the total, which is the length
of the group. -/
theorem claim_C3_location_summary (g : List Review)
    (h1 : ∀ r ∈ g, -1 ≤ r.sentiment ∧ r.sentiment ≤ 1) (h2 : g ≠ []) :
    ∃ s, summarize_location g = .ok s
      ∧ s.positive_reviews = g.countP (fun r => decide (0 < r.sentiment))
      ∧ s.negative_reviews = g.countP (fun r => decide (r.sentiment < 0))
      ∧ s.neutral_reviews = g.countP (fun r => decide (r.sentiment = 0))
      ∧ s.mean_sentiment = ((g.map (fun r => r.sentiment)).sum) / (g.length : ℚ)
      ∧ s.sentiment_count = g.length
      ∧ s.positive_reviews + s.negative_reviews + s.neutral_reviews
          = s.sentiment_count := by
  match g, h2 with
  | r :: t, _ =>
    exact ⟨statsOf (r :: t), rfl, rfl, rfl, rfl, rfl, rfl,
      sentiment_count_partition (r :: t)⟩

/-- Witness for claim C3 at a concrete three-review group with sentiments
1, -1 and 0. -/
theorem claim_C3_location_summary_witness :
    ∃ s, summarize_location
        [⟨"b1", "X", "Tampa", some "restaurant", "33101", "a", 0, 0, 1⟩,
         ⟨"b1", "X", "Tampa", some "restaurant", "33101", "a", 0, 0, -1⟩,
         ⟨"b1", "X", "Tampa", some "restaurant", "33101", "a", 0, 0, 0⟩] = .ok s
      ∧ s.positive_reviews
          = ([⟨"b1", "X", "Tampa", some "restaurant", "33101", "a", 0, 0, 1⟩,
              ⟨"b1", "X", "Tampa", some "restaurant", "33101", "a", 0, 0, -1⟩,
              ⟨"b1", "X", "Tampa", some "restaurant", "33101", "a", 0, 0,
                0⟩] : List Review).countP (fun r => decide (0 < r.sentiment))
      ∧ s.negative_reviews
          = ([⟨"b1", "X", "Tampa", some "restaurant", "33101", "a", 0, 0, 1⟩,
              ⟨"b1", "X", "Tampa", some "restaurant", "33101", "a", 0, 0, -1⟩,
              ⟨"b1", "X", "Tampa", some "restaurant", "33101", "a", 0, 0,
                0⟩] : List Review).countP (fun r => decide (r.sentiment < 0))
      ∧ s.neutral_reviews
          = ([⟨"b1", "X", "Tampa", some "restaurant", "33101", "a", 0, 0, 1⟩,
              ⟨"b1", "X", "Tampa", some "restaurant", "33101", "a", 0, 0, -1⟩,
              ⟨"b1", "X", "Tampa", some "restaurant", "33101", "a", 0, 0,
                0⟩] : List Review).countP (fun r => decide (r.sentiment = 0))
      ∧ s.mean_sentiment
          = ((([⟨"b1", "X", "Tampa", some "restaurant", "33101", "a", 0, 0, 1⟩,
               ⟨"b1", "X", "Tampa", some "restaurant", "33101", "a", 0, 0, -1⟩,
               ⟨"b1", "X", "Tampa", some "restaurant", "33101", "a", 0, 0,
                 0⟩] : List Review).map (fun r => r.sentiment)).sum) / 3
      ∧ s.sentiment_count = 3
      ∧ s.positive_reviews + s.negative_reviews + s.neutral_reviews
          = s.sentiment_count :=
  claim_C3_location_summary
    [⟨"b1", "X", "Tampa", some "restaurant", "33101", "a", 0, 0, 1⟩,
     ⟨"b1", "X", "Tampa", some "restaurant", "33101", "a", 0, 0, -1⟩,
     ⟨"b1", "X", "Tampa", some "restaurant", "33101", "a", 0, 0, 0⟩]
    (by decide) (by decide)

/-- Claim C4: summarize_location on the empty group fails with
EmptyGroupError; it does not return any statistics value (so no NaN mean and
no division by zero can be observed by a caller). -/
theorem claim_C4_empty_group_error :
    summarize_location [] = .error .emptyGroup
      ∧ ∀ s : SentimentStats, summarize_location [] ≠ .ok s := by
  exact ⟨rfl, fun s h => by cases h⟩

/-! ## Color classification (src lines 117-123 and 223-229) -/

/-- Marker color branching of the all-businesses map, src lines 117-123. -/
def marker_color (sentiment : ℚ) : String :=
  if sentiment > 0 then "green" else if sentiment < 0 then "red" else "gray"

/-- Marker color branching of the selected-business map, src lines 223-229. -/
def business_marker_color (sentiment : ℚ) : String :=
  if sentiment > 0 then "green" else if sentiment < 0 then "red" else "gray"

/-- Claim C9: the sentiment classification is exactly tri-state -- green
exactly for positive sentiment, red exactly for negative sentiment, gray
exactly for zero -- and the two map-rendering sites classify identically,
with the same predicates (sentiment > 0, sentiment < 0, sentiment == 0) that
the summary counts of statsOf use. -/
theorem claim_C9_tri_state_colors (s : ℚ) :
    marker_color s = business_marker_color s
      ∧ (marker_color s = "green" ↔ 0 < s)
      ∧ (marker_color s = "red" ↔ s < 0)
      ∧ (marker_color s = "gray" ↔ s = 0) := by
  refine ⟨rfl, ?_, ?_, ?_⟩
  · constructor
    · intro hg
      by_contra hns
      unfold marker_color at hg
      rw [if_neg hns] at hg
      by_cases h2 : s < 0
      · rw [if_pos h2] at hg; exact absurd hg (by decide)
      · rw [if_neg h2] at hg; exact absurd hg (by decide)
    · intro h
      simp [marker_color, h]
  · constructor
    · intro hg
      by_contra hns
      unfold marker_color at hg
      by_cases h1 : s > 0
      · rw [if_pos h1] at hg; exact absurd hg (by decide)
      · rw [if_neg h1, if_neg hns] at hg; exact absurd hg (by decide)
    · intro h
      have h1 : ¬s > 0 := not_lt.mpr h.le
      simp [marker_color, h1, h]
  · constructor
    · intro hg
      unfold marker_color at hg
      by_cases h1 : s > 0
      · rw [if_pos h1] at hg; exact absurd hg (by decide)
      · by_cases h2 : s < 0
        · rw [if_neg h1, if_pos h2] at hg; exact absurd hg (by decide)
        · exact le_antisymm (not_lt.mp h1) (not_lt.mp h2)
    · intro h
      simp [marker_color, h, lt_irrefl]

/-! ## Code-point ordering on strings
(the ordering pandas uses for sorted groupby keys) -/

/-- Strict code-point comparison of characters. -/
def charLt (a b : Char) : Bool := a.toNat < b.toNat

/-- Strict lexicographic code-point comparison of character lists. -/
def clLt : List Char → List Char → Bool
  | [], [] => false
  | [], _ :: _ => true
  | _ :: _, [] => false
  | a :: as, b :: bs => charLt a b || (a == b && clLt as bs)

/-- Strict lexicographic comparison of strings, the key order used by
pandas groupby over a string column. -/
def strLt (a b : String) : Bool := clLt a.data b.data

theorem charToNat_inj {a b : Char} (h : a.toNat = b.toNat) : a = b := by
  rcases a with ⟨⟨av, ah⟩, ava⟩
  rcases b with ⟨⟨bv, bh⟩, bva⟩
  simp only [Char.toNat, UInt32.toNat] at h
  subst h
  rfl

theorem clLt_trans :
    ∀ a b c, clLt a b = true → clLt b c = true → clLt a c = true
  | [], b, c, h1, h2 => by
    cases b with
    | nil => simp [clLt] at h1
    | cons y ys =>
      cases c with
      | nil => simp [clLt] at h2
      | cons z zs => simp [clLt]
  | x :: xs, b, c, h1, h2 => by
    cases b with
    | nil => simp [clLt] at h1
    | cons y ys =>
      cases c with
      | nil => simp [clLt] at h2
      | cons z zs =>
        simp only [clLt, charLt, Bool.or_eq_true, Bool.and_eq_true,
          beq_iff_eq, decide_eq_true_eq] at h1 h2 ⊢
        rcases h1 with h1 | ⟨rfl, h1⟩
        · rcases h2 with h2 | ⟨rfl, h2⟩
          · exact Or.inl (h1.trans h2)
          · exact Or.inl h1
        · rcases h2 with h2 | ⟨rfl, h2⟩
          · exact Or.inl h2
          · exact Or.inr ⟨rfl, clLt_trans xs ys zs h1 h2⟩

theorem clLt_total :
    ∀ a b, a ≠ b → clLt a b = false → clLt b a = true
  | [], [], hne, _ => absurd rfl hne
  | [], _ :: _, _, h2 => by simp [clLt] at h2
  | _ :: _, [], _, _ => by simp [clLt]
  | x :: xs, y :: ys, hne, h2 => by
    have hsplit : charLt x y = false ∧ (x == y && clLt xs ys) = false := by
      constructor
      · cases hv : charLt x y with
        | false => rfl
        | true => rw [clLt, hv] at h2; simp at h2
      · cases hv : (x == y && clLt xs ys) with
        | false => rfl
        | true => rw [clLt, hv] at h2; simp at h2
    rcases hsplit with ⟨hc, hrest⟩
    have hnlt : ¬x.toNat < y.toNat := by simpa [charLt] using hc
    rcases Nat.lt_trichotomy y.toNat x.toNat with hlt | heq | hgt
    · simp [clLt, charLt, hlt]
    · have hyx : y = x := charToNat_inj heq
      subst hyx
      have hcl : clLt xs ys = false := by
        cases hclv : clLt xs ys with
        | false => rfl
        | true =>
          rw [hclv] at hrest
          simp at hrest
      have hxs : xs ≠ ys := by
        intro hcon
        exact hne (by rw [hcon])
      simp [clLt, charLt, clLt_total xs ys hxs hcl]
    · exact absurd hgt hnlt

theorem strData_inj {a b : String} (h : a.data = b.data) : a = b := by
  rcases a with ⟨ad⟩
  rcases b with ⟨bd⟩
  exact congrArg String.mk h

theorem strLt_trans {a b c : String} (h1 : strLt a b = true)
    (h2 : strLt b c = true) : strLt a c = true :=
  clLt_trans a.data b.data c.data h1 h2

theorem strLt_total {a b : String} (hne : a ≠ b) (h : strLt a b = false) :
    strLt b a = true :=
  clLt_total a.data b.data (fun hd => hne (strData_inj hd)) h

/-! ## Sorted distinct-key grouping
(the key behavior of pandas groupby with its default sort=True) -/

section Grouping

variable {κ : Type} [DecidableEq κ] (lt : κ → κ → Bool)

/-- Insert a key into a sorted distinct-key list, keeping it sorted and
distinct. -/
def insortKey (k : κ) : List κ → List κ
  | [] => [k]
  | m :: ms =>
    if k = m then m :: ms
    else if lt k m then k :: m :: ms
    else m :: insortKey k ms

/-- Distinct group keys of the rows in ascending key order: the embedding of
the index produced by pandas groupby(column) with its default sort=True. -/
def groupKeys (key : Review → κ) (rows : List Review) : List κ :=
  rows.foldl (fun acc r => insortKey lt (key r) acc) []

theorem mem_insortKey (k : κ) (l : List κ) (x : κ) :
    x ∈ insortKey lt k l ↔ x = k ∨ x ∈ l := by
  induction l with
  | nil => simp [insortKey]
  | cons m ms ih =>
    by_cases h1 : k = m
    · rw [insortKey, if_pos h1]
      subst h1
      constructor
      · exact Or.inr
      · rintro (rfl | hx)
        · exact List.mem_cons_self _ _
        · exact hx
    · by_cases h2 : lt k m = true
      · rw [insortKey, if_neg h1, if_pos h2]
        simp only [List.mem_cons]
      · rw [insortKey, if_neg h1, if_neg h2]
        simp only [List.mem_cons, ih]
        tauto

theorem pairwise_insortKey
    (htrans : ∀ a b c, lt a b = true → lt b c = true → lt a c = true)
    (htotal : ∀ a b, a ≠ b → lt a b = false → lt b a = true)
    (k : κ) (l : List κ) (h : l.Pairwise (fun a b => lt a b = true)) :
    (insortKey lt k l).Pairwise (fun a b => lt a b = true) := by
  induction l with
  | nil => simp [insortKey]
  | cons m ms ih =>
    rcases List.pairwise_cons.mp h with ⟨hm, hms⟩
    by_cases h1 : k = m
    · rw [insortKey, if_pos h1]
      exact h
    · by_cases h2 : lt k m = true
      · rw [insortKey, if_neg h1, if_pos h2]
        refine List.pairwise_cons.mpr ⟨?_, h⟩
        intro x hx
        rcases List.mem_cons.mp hx with rfl | hx'
        · exact h2
        · exact htrans _ _ _ h2 (hm x hx')
      · rw [insortKey, if_neg h1, if_neg h2]
        refine List.pairwise_cons.mpr ⟨?_, ih hms⟩
        intro x hx
        rcases (mem_insortKey lt k ms x).mp hx with h3 | hx'
        · rw [h3]
          exact htotal k m h1 (by simpa using h2)
        · exact hm x hx'

theorem pairwise_groupKeys
    (htrans : ∀ a b c, lt a b = true → lt b c = true → lt a c = true)
    (htotal : ∀ a b, a ≠ b → lt a b = false → lt b a = true)
    (key : Review → κ) (rows : List Review) :
    (groupKeys lt key rows).Pairwise (fun a b => lt a b = true) := by
  have hgen :
      ∀ (rs : List Review) (acc : List κ),
        acc.Pairwise (fun a b => lt a b = true) →
          (rs.foldl (fun a r => insortKey lt (key r) a) acc).Pairwise
            (fun a b => lt a b = true) := by
    intro rs
    induction rs with
    | nil => intro acc hacc; simpa using hacc
    | cons r t ih =>
      intro acc hacc
      exact ih _ (pairwise_insortKey lt htrans htotal (key r) acc hacc)
  exact hgen rows [] (by simp)

theorem mem_groupKeys (key : Review → κ) (rows : List Review) (x : κ) :
    x ∈ groupKeys lt key rows ↔ ∃ r ∈ rows, key r = x := by
  have hgen :
      ∀ (rs : List Review) (acc : List κ),
        (x ∈ rs.foldl (fun a r => insortKey lt (key r) a) acc ↔
          x ∈ acc ∨ ∃ r ∈ rs, key r = x) := by
    intro rs
    induction rs with
    | nil => intro acc; simp
    | cons r t ih =>
      intro acc
      rw [List.foldl_cons, ih, mem_insortKey]
      constructor
      · rintro ((rfl | hacc) | ⟨r', hr', rfl⟩)
        · exact Or.inr ⟨r, by simp⟩
        · exact Or.inl hacc
        · exact Or.inr ⟨r', by simp [hr']⟩
      · rintro (hacc | ⟨r', hr', rfl⟩)
        · exact Or.inl (Or.inr hacc)
        · rcases List.mem_cons.mp hr' with rfl | hr''
          · exact Or.inl (Or.inl rfl)
          · exact Or.inr ⟨r', hr'', rfl⟩
  simpa using hgen rows []

end Grouping

/-! ## business_counts (src lines 139-141) -/

/-- One row of the business_counts table: a business name and its
franchisee_count. -/
structure NameCount where
  name : String
  franchisee_count : Nat
deriving DecidableEq, Repr

/-- Embedding of src line 140:
filtered_data.groupby('name').size().reset_index(name='franchisee_count').
The groupby default sort=True lists the distinct names in ascending
code-point order; size() counts the raw rows carrying each name. -/
def business_counts_grouped (rows : List Review) : List NameCount :=
  (groupKeys strLt (fun r => r.name) rows).map
    (fun n => ⟨n, (rows.filter (fun r => r.name == n)).length⟩)

/-- Insert one row into a list already sorted by descending
franchisee_count, keeping it sorted. -/
def insortCountDesc (x : NameCount) : List NameCount → List NameCount
  | [] => [x]
  | y :: ys =>
    if y.franchisee_count ≤ x.franchisee_count then x :: y :: ys
    else y :: insortCountDesc x ys

/-- Sort by descending franchisee_count, the embedding of src line 141:
business_counts.sort_values('franchisee_count', ascending=False). -/
def sortCountDesc : List NameCount → List NameCount
  | [] => []
  | x :: xs => insortCountDesc x (sortCountDesc xs)

/-- Embedding of the business_counts table built at src lines 140-141. -/
def business_counts (rows : List Review) : List NameCount :=
  sortCountDesc (business_counts_grouped rows)

theorem mem_insortCountDesc (x : NameCount) (l : List NameCount)
    (z : NameCount) : z ∈ insortCountDesc x l ↔ z = x ∨ z ∈ l := by
  induction l with
  | nil => simp [insortCountDesc]
  | cons y ys ih =>
    by_cases h1 : y.franchisee_count ≤ x.franchisee_count
    · rw [insortCountDesc, if_pos h1]
      simp only [List.mem_cons]
    · rw [insortCountDesc, if_neg h1]
      simp only [List.mem_cons, ih]
      tauto

theorem pairwise_insortCountDesc (x : NameCount) (l : List NameCount)
    (h : l.Pairwise (fun a b => b.franchisee_count ≤ a.franchisee_count)) :
    (insortCountDesc x l).Pairwise
      (fun a b => b.franchisee_count ≤ a.franchisee_count) := by
  induction l with
  | nil => simp [insortCountDesc]
  | cons y ys ih =>
    rcases List.pairwise_cons.mp h with ⟨hy, hys⟩
    by_cases h1 : y.franchisee_count ≤ x.franchisee_count
    · rw [insortCountDesc, if_pos h1]
      refine List.pairwise_cons.mpr ⟨?_, h⟩
      intro z hz
      rcases List.mem_cons.mp hz with rfl | hz'
      · exact h1
      · exact (hy z hz').trans h1
    · rw [insortCountDesc, if_neg h1]
      refine List.pairwise_cons.mpr ⟨?_, ih hys⟩
      intro z hz
      rcases mem_insortCountDesc x ys z |>.mp hz with h3 | hz'
      · rw [h3]
        exact (not_le.mp h1).le
      · exact hy z hz'

theorem pairwise_sortCountDesc (l : List NameCount) :
    (sortCountDesc l).Pairwise
      (fun a b => b.franchisee_count ≤ a.franchisee_count) := by
  induction l with
  | nil => simp [sortCountDesc]
  | cons x xs ih =>
    rw [sortCountDesc]
    exact pairwise_insortCountDesc x (sortCountDesc xs) ih

/-- Claim C1 (code behavior at the failing input): on a dataset holding two
review rows for one and the same location (one business_id "b1") under the
name "X", the business_counts table built by src line 140 reports
franchisee_count = 2 for "X", although the number of distinct location
identifiers under that name is 1: the code counts raw review rows per name
and does not deduplicate by business identifier first, so the reported count
exceeds the true distinct-location count. -/
theorem claim_C1_code_counts_rows :
    business_counts
        [⟨"b1", "X", "Tampa", some "restaurant", "33101", "a", 0, 0, 1⟩,
         ⟨"b1", "X", "Tampa", some "restaurant", "33101", "a", 0, 0, 0⟩]
        = [⟨"X", 2⟩]
      ∧ (groupKeys strLt (fun r => r.business_id)
          [⟨"b1", "X", "Tampa", some "restaurant", "33101", "a", 0, 0, 1⟩,
           ⟨"b1", "X", "Tampa", some "restaurant", "33101", "a", 0, 0,
             0⟩]).length = 1 := by
  decide

/-- Counterexample to claim C5: with two single-row businesses encountered
in the order "B" then "A" (equal counts, so the claim predicts the tie keeps
encounter order "B", "A"), the business_counts table lists "A" before "B",
because the groupby step at src line 140 already reordered the names
alphabetically before the count sort ran. -/
theorem claim_C5_counterexample :
    business_counts
        [⟨"b2", "B", "Tampa", some "restaurant", "33102", "a", 0, 0, 0⟩,
         ⟨"b1", "A", "Tampa", some "restaurant", "33101", "a", 0, 0, 0⟩]
        = [⟨"A", 1⟩, ⟨"B", 1⟩]
      ∧ business_counts
          [⟨"b2", "B", "Tampa", some "restaurant", "33102", "a", 0, 0, 0⟩,
           ⟨"b1", "A", "Tampa", some "restaurant", "33101", "a", 0, 0, 0⟩]
          ≠ [⟨"B", 1⟩, ⟨"A", 1⟩] := by
  decide

/-- Claim C5 as amended: the business_counts table is sorted by
franchisee_count in descending order; the relative order of entries with
equal counts is not the original encounter order of the input (the grouping
step pre-sorts the names alphabetically, see the counterexample). -/
theorem claim_C5_sorted_desc (rows : List Review) :
    (business_counts rows).Pairwise
      (fun a b => b.franchisee_count ≤ a.franchisee_count) :=
  pairwise_sortCountDesc (business_counts_grouped rows)

/-! ## franchise_candidates (src line 154) -/

/-- Embedding of src line 154:
business_counts[business_counts['franchisee_count'] > 2]['name'].tolist(),
with the hard-coded store threshold 2 generalized to a parameter as in the
spec contract (the script instantiates threshold = 2). -/
def franchise_candidates (counts : List NameCount) (threshold : Nat) :
    List String :=
  (counts.filter (fun c => threshold < c.franchisee_count)).map
    (fun c => c.name)

/-- Claim C6: franchise_candidates returns exactly the names whose count is
strictly greater than the threshold, in the order of the counts table; with
threshold 2 these are exactly the names with count at least 3; and when no
entry qualifies the result is the empty list rather than an error. -/
theorem claim_C6_franchise_candidates (counts : List NameCount)
    (t : Nat) :
    (∀ n, n ∈ franchise_candidates counts t ↔
        ∃ c ∈ counts, c.name = n ∧ t < c.franchisee_count)
      ∧ (franchise_candidates counts t).Sublist
          (counts.map (fun c => c.name))
      ∧ franchise_candidates counts 2
          = (counts.filter (fun c => 3 ≤ c.franchisee_count)).map
              (fun c => c.name)
      ∧ ((∀ c ∈ counts, c.franchisee_count ≤ t) →
          franchise_candidates counts t = []) := by
  refine ⟨?_, ?_, ?_, ?_⟩
  · intro n
    simp only [franchise_candidates, List.mem_map, List.mem_filter,
      decide_eq_true_eq]
    constructor
    · rintro ⟨c, ⟨hc, ht⟩, rfl⟩
      exact ⟨c, hc, rfl, ht⟩
    · rintro ⟨c, hc, rfl, ht⟩
      exact ⟨c, ⟨hc, ht⟩, rfl⟩
  · exact List.Sublist.map (fun c => c.name) (List.filter_sublist counts)
  · have hf :
        counts.filter (fun c => 2 < c.franchisee_count)
          = counts.filter (fun c => 3 ≤ c.franchisee_count) := by
      apply List.filter_congr
      intro c _
      exact decide_eq_decide.mpr (by omega)
    rw [franchise_candidates, hf]
  · intro hall
    have hf : counts.filter (fun c => t < c.franchisee_count) = [] := by
      rw [List.filter_eq_nil_iff]
      intro c hc
      simpa using not_lt.mpr (hall c hc)
    rw [franchise_candidates, hf]
    rfl

/-- Witness for claim C6: with the single count row ("X", 2) and the
script's threshold 2, no business qualifies and the candidate list is empty. -/
theorem claim_C6_franchise_candidates_witness :
    franchise_candidates [⟨"X", 2⟩] 2 = [] :=
  (claim_C6_franchise_candidates [⟨"X", 2⟩] 2).2.2.2 (by decide)

/-! ## sentiment_summary (src lines 184-190) -/

/-- Group key of the aggregation at src line 184:
groupby(['business_id', 'name', 'postal_code']). -/
structure LocKey where
  business_id : String
  name : String
  postal_code : String
deriving DecidableEq, Repr

/-- Group key of a review row. -/
def keyOf (r : Review) : LocKey := ⟨r.business_id, r.name, r.postal_code⟩

/-- Lexicographic order on group keys, the order in which pandas groupby
with its default sort=True lists the key tuples. -/
def keyLt (a b : LocKey) : Bool :=
  strLt a.business_id b.business_id ||
    (a.business_id == b.business_id &&
      (strLt a.name b.name ||
        (a.name == b.name && strLt a.postal_code b.postal_code)))

theorem keyLt_trans :
    ∀ a b c, keyLt a b = true → keyLt b c = true → keyLt a c = true := by
  intro a b c h1 h2
  simp only [keyLt, Bool.or_eq_true, Bool.and_eq_true, beq_iff_eq] at h1 h2 ⊢
  rcases h1 with h1 | ⟨e1, h1⟩
  · rcases h2 with h2 | ⟨e2, h2⟩
    · exact Or.inl (strLt_trans h1 h2)
    · exact Or.inl (e2 ▸ h1)
  · rcases h2 with h2 | ⟨e2, h2⟩
    · exact Or.inl (e1 ▸ h2)
    · refine Or.inr ⟨e1.trans e2, ?_⟩
      rcases h1 with h1 | ⟨f1, h1⟩
      · rcases h2 with h2 | ⟨f2, h2⟩
        · exact Or.inl (strLt_trans h1 h2)
        · exact Or.inl (f2 ▸ h1)
      · rcases h2 with h2 | ⟨f2, h2⟩
        · exact Or.inl (f1 ▸ h2)
        · exact Or.inr ⟨f1.trans f2, strLt_trans h1 h2⟩

theorem keyLt_total :
    ∀ a b, a ≠ b → keyLt a b = false → keyLt b a = true := by
  intro a b hne h
  simp only [keyLt, Bool.or_eq_false_iff, Bool.and_eq_false_iff,
    Bool.or_eq_true, Bool.and_eq_true, beq_iff_eq] at h ⊢
  rcases h with ⟨hb, hrest⟩
  by_cases e1 : a.business_id = b.business_id
  · refine Or.inr ⟨e1.symm, ?_⟩
    rcases hrest with hfalse | hrest
    · rw [beq_eq_false_iff_ne] at hfalse
      exact absurd e1 hfalse
    · rcases hrest with ⟨hn, hrest⟩
      by_cases e2 : a.name = b.name
      · refine Or.inr ⟨e2.symm, ?_⟩
        rcases hrest with hfalse | hp
        · rw [beq_eq_false_iff_ne] at hfalse
          exact absurd e2 hfalse
        · have e3 : a.postal_code ≠ b.postal_code := by
            intro e3
            exact hne (by
              rcases a with ⟨a1, a2, a3⟩
              rcases b with ⟨b1, b2, b3⟩
              simp only at e1 e2 e3
              rw [e1, e2, e3])
          exact strLt_total e3 hp
      · exact Or.inl (strLt_total e2 hn)
  · exact Or.inl (strLt_total e1 hb)

/-- Embedding of the sentiment_summary table built at src lines 184-190:
one row per distinct (business_id, name, postal_code) group key, keys in
ascending order, each row carrying the sentiment statistics of the rows of
that group. -/
def sentiment_summary (rows : List Review) : List (LocKey × SentimentStats) :=
  (groupKeys keyLt keyOf rows).map
    (fun k => (k, statsOf (rows.filter (fun r => keyOf r == k))))

/-- Counterexample to claim C7: two locations of one business are
encountered in the order business_id "b2" then "a1", but sentiment_summary
lists the "a1" group first: the groupby at src line 184 orders groups by
sorted key, not by first appearance. -/
theorem claim_C7_counterexample :
    (sentiment_summary
          [⟨"b2", "X", "Tampa", some "restaurant", "33102", "a", 0, 0, 1⟩,
           ⟨"a1", "X", "Tampa", some "restaurant", "33101", "a", 0, 0, 0⟩]).map
        Prod.fst
        = [⟨"a1", "X", "33101"⟩, ⟨"b2", "X", "33102"⟩]
      ∧ (sentiment_summary
            [⟨"b2", "X", "Tampa", some "restaurant", "33102", "a", 0, 0, 1⟩,
             ⟨"a1", "X", "Tampa", some "restaurant", "33101", "a", 0, 0,
               0⟩]).map Prod.fst
          ≠ [⟨"b2", "X", "33102"⟩, ⟨"a1", "X", "33101"⟩] := by
  decide

/-- Claim C7 as amended: sentiment_summary partitions the input by the
(business_id, name, postal_code) group key and returns exactly one summary
per distinct key occurring in the input, each summary being the successful
summarize_location result of that key's partition; the summaries appear in
ascending group-key order (the pandas sorted groupby order), not in order of
each location's first appearance in the input. -/
theorem claim_C7_grouped_summaries (rows : List Review) :
    (sentiment_summary rows).Pairwise (fun p q => keyLt p.1 q.1 = true)
      ∧ (∀ k, k ∈ (sentiment_summary rows).map Prod.fst ↔
          ∃ r ∈ rows, keyOf r = k)
      ∧ ∀ p ∈ sentiment_summary rows,
          summarize_location (rows.filter (fun r => keyOf r == p.1))
            = .ok p.2 := by
  refine ⟨?_, ?_, ?_⟩
  · have hp := pairwise_groupKeys keyLt keyLt_trans keyLt_total keyOf rows
    unfold sentiment_summary
    exact List.Pairwise.map _ (fun a b hab => hab) hp
  · intro k
    unfold sentiment_summary
    rw [List.map_map]
    have : (Prod.fst ∘ fun k =>
        (k, statsOf (rows.filter (fun r => keyOf r == k)))) = id := rfl
    rw [this, List.map_id]
    exact mem_groupKeys keyLt keyOf rows k
  · intro p hp
    unfold sentiment_summary at hp
    rcases List.mem_map.mp hp with ⟨k, hk, rfl⟩
    have hex := (mem_groupKeys keyLt keyOf rows k).mp hk
    rcases hex with ⟨r, hr, hkr⟩
    have hmem : r ∈ rows.filter (fun r0 => keyOf r0 == k) := by
      rw [List.mem_filter]
      exact ⟨hr, by simp [hkr]⟩
    match hfil : rows.filter (fun r0 => keyOf r0 == k) with
    | [] => rw [hfil] at hmem; cases hmem
    | r0 :: t => rw [summarize_location]

/-- Witness for claim C7: on a concrete two-location dataset the key of the
"a1" location is listed in the summary table. -/
theorem claim_C7_grouped_summaries_witness :
    (⟨"a1", "X", "33101"⟩ : LocKey) ∈
      (sentiment_summary
          [⟨"b2", "X", "Tampa", some "restaurant", "33102", "a", 0, 0, 1⟩,
           ⟨"a1", "X", "Tampa", some "restaurant", "33101", "a", 0, 0,
             0⟩]).map Prod.fst :=
  ((claim_C7_grouped_summaries
        [⟨"b2", "X", "Tampa", some "restaurant", "33102", "a", 0, 0, 1⟩,
         ⟨"a1", "X", "Tampa", some "restaurant", "33101", "a", 0, 0,
           0⟩]).2.1 ⟨"a1", "X", "33101"⟩).mpr
    ⟨⟨"a1", "X", "Tampa", some "restaurant", "33101", "a", 0, 0, 0⟩,
      by decide, by decide⟩

/-! ## format_postal_code (src lines 39-44) and the fragment of the Python
numeric model it exercises -/

/-- Python exceptions distinguishable by the try/except of src lines 40-44. -/
inductive PyExc where
  | valueError
  | typeError
  | overflowError
deriving DecidableEq, Repr

/-- Idealized Python float value as produced by float() on the inputs
format_postal_code can receive: an exact decimal num / 10^scale (binary
rounding of the true float type is not modelled; it is exact on the
postal-code-sized decimals at issue), or an infinity, or NaN. -/
inductive PyFloat where
  | finite (num : Int) (scale : Nat)
  | infty (neg : Bool)
  | nan
deriving DecidableEq, Repr

/-- A Python value a pandas postal_code cell can hold. -/
inductive PyVal where
  | str (s : String)
  | int (n : Int)
  | float (f : PyFloat)
  | pynone
deriving DecidableEq, Repr

/-- Whitespace stripped by Python float() around a numeric string. -/
def isSpaceChar (c : Char) : Bool :=
  c == ' ' || c == '\t' || c == '\n' || c == '\r'

/-- Strip leading and trailing whitespace. -/
def trimChars (l : List Char) : List Char :=
  ((l.dropWhile isSpaceChar).reverse.dropWhile isSpaceChar).reverse

/-- Value of a decimal digit character. -/
def digitVal (c : Char) : Option Nat :=
  if 48 ≤ c.toNat ∧ c.toNat ≤ 57 then some (c.toNat - 48) else none

/-- Digit values of a character list, or none if any character is not a
decimal digit. -/
def allDigits : List Char → Option (List Nat)
  | [] => some []
  | c :: t =>
    match digitVal c, allDigits t with
    | some d, some ds => some (d :: ds)
    | _, _ => none

/-- Numeric value of a digit list, most significant first. -/
def digitsVal (ds : List Nat) : Nat := ds.foldl (fun a d => a * 10 + d) 0

/-- Parse an unsigned decimal literal (digits with at most one decimal
point, at least one digit in total) into mantissa and scale. -/
def parseUnsigned (l : List Char) : Option (Nat × Nat) :=
  let ip := l.takeWhile (fun c => (digitVal c).isSome)
  let rest := l.dropWhile (fun c => (digitVal c).isSome)
  match rest with
  | [] =>
    match allDigits ip with
    | some [] => none
    | some ds => some (digitsVal ds, 0)
    | none => none
  | '.' :: fp =>
    match allDigits ip, allDigits fp with
    | some ids, some fds =>
      if ids.isEmpty ∧ fds.isEmpty then none
      else some (digitsVal (ids ++ fds), fds.length)
    | _, _ => none
  | _ => none

/-- Modelled from the spec and the Python semantics of the builtin float()
on strings, which src line 42 calls but whose code is outside this
repository: after stripping whitespace and lower-casing, an optional sign
followed by either the special spellings inf / infinity / nan or a decimal
literal; anything else raises ValueError. Exponent notation and underscore
separators are not modelled. -/
def pyFloatOfChars (l : List Char) : Except PyExc PyFloat :=
  let t := (trimChars l).map charLower
  let core :=
    match t with
    | '+' :: r => (false, r)
    | '-' :: r => (true, r)
    | r => (false, r)
  let neg := core.1
  let body := core.2
  if body = ['i', 'n', 'f'] ∨ body = ['i', 'n', 'f', 'i', 'n', 'i', 't', 'y']
  then .ok (.infty neg)
  else if body = ['n', 'a', 'n'] then .ok .nan
  else
    match parseUnsigned body with
    | some (m, k) => .ok (.finite (if neg then -(m : Int) else (m : Int)) k)
    | none => .error .valueError

/-- Python float(x) on the value shapes format_postal_code can receive:
strings are parsed, ints are exact, floats pass through, None raises
TypeError. -/
def pyFloat : PyVal → Except PyExc PyFloat
  | .str s => pyFloatOfChars s.data
  | .int n => .ok (.finite n 0)
  | .float f => .ok f
  | .pynone => .error .typeError

/-- Python int(f) on a float: truncation toward zero for finite values,
OverflowError on an infinity, ValueError on NaN. -/
def pyInt : PyFloat → Except PyExc Int
  | .finite num scale =>
    .ok (if num < 0 then -(((num.natAbs / 10 ^ scale : Nat)) : Int)
         else (((num.natAbs / 10 ^ scale : Nat)) : Int))
  | .infty _ => .error .overflowError
  | .nan => .error .valueError

/-- Left-pad a string with zeros to the given width. -/
def padZeros (s : String) (k : Nat) : String :=
  ⟨List.replicate (k - s.data.length) '0' ++ s.data⟩

/-- Python str() of a float value. -/
def pyStrOfFloat : PyFloat → String
  | .infty neg => if neg then "-inf" else "inf"
  | .nan => "nan"
  | .finite num scale =>
    let sign := if num < 0 then "-" else ""
    let a := num.natAbs
    if scale = 0 then sign ++ toString a ++ ".0"
    else sign ++ toString (a / 10 ^ scale) ++ "."
      ++ padZeros (toString (a % 10 ^ scale)) scale

/-- Python str() of a value, as used by the fallback of src line 44. -/
def pyStr : PyVal → String
  | .str s => s
  | .int n => toString n
  | .float f => pyStrOfFloat f
  | .pynone => "None"

/-- Embedding of format_postal_code (src lines 39-44):
try str(int(float(postal_code))) and on ValueError or TypeError fall back to
str(postal_code); any other exception -- in particular the OverflowError int()
raises on an infinite float -- is not caught and propagates to the caller. -/
def format_postal_code (v : PyVal) : Except PyExc String :=
  match pyFloat v with
  | .error .valueError => .ok (pyStr v)
  | .error .typeError => .ok (pyStr v)
  | .error e => .error e
  | .ok f =>
    match pyInt f with
    | .error .valueError => .ok (pyStr v)
    | .error .typeError => .ok (pyStr v)
    | .error e => .error e
    | .ok n => .ok (toString n)

/-- Claim C8 (code behavior, including the failing input): the three
documented examples hold -- "33101.0" normalizes to "33101", the non-numeric
"N/A" passes through unchanged, and the integer 33101 becomes "33101" --
and the NaN string also falls back to itself; but the function is not total
for the caller: on the string "inf" the conversion raises OverflowError,
which the except clause of src line 43 does not catch, so the call fails
instead of passing the original value through. -/
theorem claim_C8_postal_code_behavior :
    format_postal_code (.str "33101.0") = .ok "33101"
      ∧ format_postal_code (.str "N/A") = .ok "N/A"
      ∧ format_postal_code (.int 33101) = .ok "33101"
      ∧ format_postal_code (.str "nan") = .ok "nan"
      ∧ format_postal_code (.str "inf") = .error .overflowError :=
  ⟨rfl, rfl, rfl, rfl, rfl⟩

/-! ## The regex reading of str.contains (pandas default regex=True)
used by src lines 24 and 26 -/

/-- Python regular-expression metacharacters (the characters the re module
does not treat as themselves). -/
def reMetaChars : List Char :=
  ['.', '^', '$', '*', '+', '?', '\x7b', '\x7d', '[', ']', '\\', '|', '(', ')']

/-- Test for a regex metacharacter. -/
def isReMeta (c : Char) : Bool := reMetaChars.contains c

/-- One compiled token of the modelled regex fragment. -/
inductive ReToken where
  | lit (c : Char)
  | anyChar
deriving DecidableEq, Repr

/-- Modelled from the Python re module that pandas str.contains compiles its
pattern with (regex=True by default), whose code is outside this repository:
the compiled form of a pattern in the modelled fragment -- literal characters
and the any-character metacharacter '.'. A pattern using any other
metacharacter is outside the fragment (none); no theorem below decides
behavior there, so the model never silently assigns those patterns a
semantics of its own. -/
def reParseFrag : List Char → Option (List ReToken)
  | [] => some []
  | c :: t =>
    if c = '.' then (reParseFrag t).map (fun ts => ReToken.anyChar :: ts)
    else if isReMeta c then none
    else (reParseFrag t).map (fun ts => ReToken.lit c :: ts)

/-- Match the token list against a prefix of the text, case-insensitively
(re.IGNORECASE, the flag str.contains(case=False) passes); '.' matches any
character except a newline. -/
def reMatchHere : List ReToken → List Char → Bool
  | [], _ => true
  | _ :: _, [] => false
  | .lit c :: ps, h :: hs => (charLower c == charLower h) && reMatchHere ps hs
  | .anyChar :: ps, h :: hs => (h != '\n') && reMatchHere ps hs

/-- re.search semantics: the token list matches at some position of the
text. -/
def reSearch : List ReToken → List Char → Bool
  | toks, [] => reMatchHere toks []
  | toks, h :: t => reMatchHere toks (h :: t) || reSearch toks t

/-- The base mask of src line 24 under the regex reading: exact city equality
and a regex search of the compiled category pattern over each non-missing
categories value (na=False). -/
def reFilterBase (rows : List Review) (city : String)
    (ktoks : List ReToken) : List Review :=
  rows.filter (fun r =>
    (r.city == city) &&
      (match r.categories with
       | none => false
       | some s => reSearch ktoks s.data))

/-- The regex reading of filter_data (src lines 23-27), with
str.contains(pat, case=False, na=False) compiling its pattern as a regular
expression; none means a pattern outside the modelled regex fragment. -/
def filter_data_re (rows : List Review) (city category : String)
    (business_name : Option String) : Option (List Review) :=
  match reParseFrag category.data with
  | none => none
  | some ktoks =>
    match business_name with
    | none => some (reFilterBase rows city ktoks)
    | some b =>
      if b = "" then some (reFilterBase rows city ktoks)
      else
        match reParseFrag b.data with
        | none => none
        | some btoks =>
          some ((reFilterBase rows city ktoks).filter
            (fun r => reSearch btoks r.name.data))

/-- A pattern free of metacharacters compiles to its characters as
literals. -/
theorem reParseFrag_literal (l : List Char)
    (h : ∀ c ∈ l, isReMeta c = false) :
    reParseFrag l = some (l.map ReToken.lit) := by
  induction l with
  | nil => rfl
  | cons c t ih =>
    have hc : isReMeta c = false := h c (List.mem_cons_self c t)
    have hdot : ¬c = '.' := by
      intro hcon
      rw [hcon] at hc
      exact absurd hc (by decide)
    rw [reParseFrag, if_neg hdot, if_neg (by simp [hc]),
      ih (fun c2 hc2 => h c2 (List.mem_cons_of_mem _ hc2))]
    rfl

/-- On all-literal tokens, matching at a position is prefix comparison of the
lower-cased characters. -/
theorem reMatchHere_lits (cs : List Char) :
    ∀ l, reMatchHere (cs.map ReToken.lit) l
      = leadsChars (cs.map charLower) (l.map charLower) := by
  induction cs with
  | nil => intro l; cases l <;> rfl
  | cons c cs ih =>
    intro l
    cases l with
    | nil => rfl
    | cons h t =>
      simp only [List.map_cons, reMatchHere, leadsChars, ih t]

/-- On all-literal tokens, the regex search is exactly the case-insensitive
substring test. -/
theorem reSearch_lits (cs : List Char) :
    ∀ l, reSearch (cs.map ReToken.lit) l
      = hasSubstr (l.map charLower) (cs.map charLower) := by
  intro l
  induction l with
  | nil => cases cs <;> rfl
  | cons h t ih =>
    simp only [List.map_cons, reSearch, hasSubstr, reMatchHere_lits, ih,
      List.map_cons]

/-- On a metacharacter-free category pattern, the regex base mask is the
literal-substring base mask. -/
theorem reFilterBase_literal (rows : List Review) (c k : String) :
    reFilterBase rows c (k.data.map ReToken.lit)
      = rows.filter (rowMatches c k) := by
  apply List.filter_congr
  intro r _
  cases hcat : r.categories with
  | none => simp [reFilterBase, rowMatches, catMatches, hcat]
  | some s =>
    simp only [hcat, rowMatches, catMatches, containsCI, lowerStr,
      reSearch_lits]

/-- On a metacharacter-free name pattern, the regex name mask is the
literal-substring name mask. -/
theorem reNameFilter_literal (l : List Review) (bn : String) :
    l.filter (fun r => reSearch (bn.data.map ReToken.lit) r.name.data)
      = l.filter (nameMatches bn) := by
  apply List.filter_congr
  intro r _
  simp only [nameMatches, containsCI, lowerStr, reSearch_lits]

/-- Counterexample to claim C2: under the code's actual regex reading of
str.contains, the category input "." is the any-character regular expression,
so the filter returns a record whose categories do not contain "." as a
case-insensitive substring -- the claim's substring guarantee is false at
this concrete input. -/
theorem claim_C2_counterexample :
    filter_data_re
        [⟨"b1", "Cafe", "Tampa", some "Restaurant", "33101", "a", 0, 0, 0⟩]
        "Tampa" "." none
      = some [⟨"b1", "Cafe", "Tampa", some "Restaurant", "33101", "a", 0, 0, 0⟩]
    ∧ catMatches (some "Restaurant") "." = false := by
  decide

/-- Claim C2 as amended: restricted to category and name inputs free of
regex metacharacters (str.contains compiles its pattern as a regular
expression by default), the regex filter succeeds and coincides with the
literal-substring filter, and the claimed properties hold: every returned
record has city exactly equal to the requested city, contains the category
as a case-insensitive substring of its categories, and (whenever a business
name is provided) contains it as a case-insensitive substring of its name;
the result is an order-preserving subsequence of the input, and when no
record matches, the result is the empty list rather than an error. -/
theorem claim_C2_literal_patterns (rows : List Review) (c k : String)
    (b : Option String)
    (hk : ∀ ch ∈ k.data, isReMeta ch = false)
    (hb : ∀ ch ∈ (b.getD "").data, isReMeta ch = false) :
    filter_data_re rows c k b = some (filter_data rows c k b)
      ∧ (∀ r ∈ filter_data rows c k b,
          r.city = c ∧ catMatches r.categories k = true ∧
            ∀ bn, b = some bn → nameMatches bn r = true)
      ∧ (filter_data rows c k b).Sublist rows
      ∧ ((∀ r ∈ rows, rowMatches c k r = false) →
          filter_data rows c k b = []) := by
  obtain ⟨h1, h2, h3⟩ := filter_data_props rows c k b
  refine ⟨?_, h1, h2, h3⟩
  have hkt : reParseFrag k.data = some (k.data.map ReToken.lit) :=
    reParseFrag_literal k.data hk
  cases b with
  | none =>
    have e1 : filter_data_re rows c k none
        = some (reFilterBase rows c (k.data.map ReToken.lit)) := by
      unfold filter_data_re
      rw [hkt]
    rw [e1, reFilterBase_literal]
    rfl
  | some bn =>
    by_cases hbn : bn = ""
    · subst hbn
      have e1 : filter_data_re rows c k (some "")
          = some (reFilterBase rows c (k.data.map ReToken.lit)) := by
        unfold filter_data_re
        rw [hkt]
        rfl
      rw [e1, reFilterBase_literal]
      simp [filter_data]
    · have hbt : reParseFrag bn.data = some (bn.data.map ReToken.lit) := by
        apply reParseFrag_literal
        simpa using hb
      have e1 : filter_data_re rows c k (some bn)
          = some ((reFilterBase rows c (k.data.map ReToken.lit)).filter
              (fun r => reSearch (bn.data.map ReToken.lit) r.name.data)) := by
        unfold filter_data_re
        rw [hkt]
        simp only [if_neg hbn]
        rw [hbt]
      rw [e1, reFilterBase_literal, reNameFilter_literal]
      simp [filter_data, hbn]

/-- Witness for the amended claim C2: at the concrete metacharacter-free
inputs "coffee" and "Cafe" the regex filter agrees with the
literal-substring filter on a concrete dataset. -/
theorem claim_C2_literal_patterns_witness :
    filter_data_re
        [⟨"b1", "Cafe", "Tampa", some "Restaurant, Coffee", "33101", "a", 0, 0,
          0⟩]
        "Tampa" "coffee" (some "Cafe")
      = some (filter_data
          [⟨"b1", "Cafe", "Tampa", some "Restaurant, Coffee", "33101", "a", 0,
            0, 0⟩]
          "Tampa" "coffee" (some "Cafe")) :=
  (claim_C2_literal_patterns
      [⟨"b1", "Cafe", "Tampa", some "Restaurant, Coffee", "33101", "a", 0, 0,
        0⟩]
      "Tampa" "coffee" (some "Cafe") (by decide) (by decide)).1
